import Mathlib

/-!
Verification of the `pytestplate` test-module generator
(`pytestplate/module_generator.py` together with the per-module loop in
`pytestplate/pytestplate.py`).

The visitor `PyTestModuleGenerator(ast.NodeVisitor)` is embedded shallowly:

* `Node` is the shape of the syntax tree the visitor dispatches on:
  `FunctionDef`, `AsyncFunctionDef` and `ClassDef` nodes carry a name and
  their child statements; every other statement kind is `other`, for which
  `ast.NodeVisitor.generic_visit` just recurses into the children.
* `GenState` is the mutable state of one generator instance
  (`module_docstring`, `imports`, `lines`, `indent`, `current_cls`), plus a
  `crashed` flag modelling the `IndexError` that Python would raise if the
  `self.lines[-2]` access in `visit_ClassDef` were ever out of bounds.
* `visit`/`visitList` are `NodeVisitor.visit` and `generic_visit`,
  threading the state in document order.
* `code` is the `code` property (renderer), `write` the `write` method over
  an abstract filesystem `FS`, and `generateAndWrite` one iteration of
  `loop_modules` where the outcome of the external `ast.parse` is passed in
  as an `Option` (`none` models a source text that fails to parse).
-/

namespace Pytestplate

/-- Class attribute `linesep = "\n"`. -/
def linesep : String := "\n"

/-- Class attribute `tab = "    "` (four spaces). -/
def tab : String := "    "

/-- Class attribute `blankline = ""`. -/
def blankline : String := ""

/-- Class attribute `default_assert_code`. -/
def default_assert_code : String := "assert False, \"not implemented\""

/-- Class attribute `default_docstring`. -/
def default_docstring : String := "\"\"\"Should ...\"\"\""

/-- Python `self.tab * n`: the indentation prefix for nesting depth `n`. -/
def tabs : Nat → String
  | 0 => ""
  | n + 1 => tab ++ tabs n

/-- Shape of the parsed tree consumed by the visitor.  `func`, `afunc` and
`cls` are `ast.FunctionDef`, `ast.AsyncFunctionDef` and `ast.ClassDef`;
`other` stands for any other statement, which the visitor handles through
`generic_visit` (recurse into children, emit nothing). -/
inductive Node where
  | func (name : String) (children : List Node)
  | afunc (name : String) (children : List Node)
  | cls (name : String) (children : List Node)
  | other (children : List Node)

/-- The mutable state of a `PyTestModuleGenerator` instance.  `moduleName`
is `self.module.name` (immutable after `__init__`); `crashed` records
whether the `self.lines[-2]` access in `visit_ClassDef` was out of bounds
(Python would raise `IndexError`). -/
structure GenState where
  moduleName : String
  module_docstring : String
  imports : List String
  lines : List String
  indent : Nat
  current_cls : Option String
  crashed : Bool
deriving DecidableEq

/-- Python `lines[-2]`, made total by returning `none` when the list has
fewer than two elements (Python raises `IndexError` there). -/
def pyNeg2 (l : List String) : Option String :=
  match l.reverse with
  | _ :: x :: _ => some x
  | _ => none

mutual

/-- `NodeVisitor.visit`, dispatching exactly as the source does:
`visit_FunctionDef`, `visit_AsyncFunctionDef`, `visit_ClassDef`, and
`generic_visit` for every other node. -/
def visit (s : GenState) : Node → GenState
  | Node.func name ch =>
      visitList { s with lines := s.lines ++
        [tabs s.indent ++ ("def test_" ++ name ++ "(" ++
           (if s.current_cls.isSome then "self" else "") ++ "):"),
         tabs (s.indent + 1) ++ default_docstring,
         tabs (s.indent + 1) ++ default_assert_code] ++
        (List.replicate (if s.current_cls.isNone then 2 else 1) blankline) } ch
  | Node.afunc name ch =>
      visitList { s with lines := s.lines ++
        [tabs s.indent ++ "@pytest.mark.asyncio",
         tabs s.indent ++ ("async def test_" ++ name ++ "():"),
         tabs (s.indent + 1) ++ default_docstring,
         tabs (s.indent + 1) ++ default_assert_code] ++
        (List.replicate (if s.current_cls.isNone then 2 else 1) blankline) } ch
  | Node.cls name ch =>
      let cd := tabs s.indent ++ ("class Test" ++ name ++ ":")
      let s1 : GenState := { s with
        lines := s.lines ++
          [cd, tabs (s.indent + 1) ++ ("\"\"\"Tests for class `" ++ name ++ "`\"\"\"\n")],
        indent := s.indent + 1,
        current_cls := some name }
      let s2 := visitList s1 ch
      let s3 : GenState := { s2 with current_cls := none }
      let s4 : GenState :=
        match pyNeg2 s3.lines with
        | some x =>
            if x = cd then
              { s3 with lines := s3.lines ++ [tabs s3.indent ++ "pass", blankline] }
            else s3
        | none => { s3 with crashed := true }
      { s4 with indent := s4.indent - 1, lines := s4.lines ++ [blankline] }
  | Node.other ch => visitList s ch

/-- `generic_visit`: visit each child in order, threading the state. -/
def visitList (s : GenState) : List Node → GenState
  | [] => s
  | n :: ns => visitList (visit s n) ns

end

mutual

/-- The value of `current_cls` after a node's subtree has been visited,
as a function of its value before.  `visit_ClassDef` sets it to `None`
unconditionally on exit; functions leave it to whatever their children
leave behind. -/
def clsAfter (c : Option String) : Node → Option String
  | Node.func _ ch => clsAfterList c ch
  | Node.afunc _ ch => clsAfterList c ch
  | Node.cls _ _ => none
  | Node.other ch => clsAfterList c ch

/-- `clsAfter` threaded through a list of siblings. -/
def clsAfterList (c : Option String) : List Node → Option String
  | [] => c
  | n :: ns => clsAfterList (clsAfter c n) ns

end

mutual

/-- The block of lines a node's visit appends to the buffer, as a pure
function of the indentation depth and enclosing-class context at entry. -/
def emitNode (ind : Nat) (c : Option String) : Node → List String
  | Node.func name ch =>
      [tabs ind ++ ("def test_" ++ name ++ "(" ++
         (if c.isSome then "self" else "") ++ "):"),
       tabs (ind + 1) ++ default_docstring,
       tabs (ind + 1) ++ default_assert_code] ++
      List.replicate (if c.isNone then 2 else 1) blankline ++
      emitList ind c ch
  | Node.afunc name ch =>
      [tabs ind ++ "@pytest.mark.asyncio",
       tabs ind ++ ("async def test_" ++ name ++ "():"),
       tabs (ind + 1) ++ default_docstring,
       tabs (ind + 1) ++ default_assert_code] ++
      List.replicate (if c.isNone then 2 else 1) blankline ++
      emitList ind c ch
  | Node.cls name ch =>
      [tabs ind ++ ("class Test" ++ name ++ ":"),
       tabs (ind + 1) ++ ("\"\"\"Tests for class `" ++ name ++ "`\"\"\"\n")] ++
      emitList (ind + 1) (some name) ch ++
      (if emitList (ind + 1) (some name) ch = []
       then [tabs (ind + 1) ++ "pass", blankline] else []) ++
      [blankline]
  | Node.other ch => emitList ind c ch

/-- `emitNode` threaded through a list of siblings. -/
def emitList (ind : Nat) (c : Option String) : List Node → List String
  | [] => []
  | n :: ns => emitNode ind c n ++ emitList ind (clsAfter c n) ns

end

mutual

/-- Whether a node contains any declaration (`FunctionDef`,
`AsyncFunctionDef` or `ClassDef`) at any depth reachable by the visitor. -/
def hasDecl : Node → Bool
  | Node.func _ _ => true
  | Node.afunc _ _ => true
  | Node.cls _ _ => true
  | Node.other ch => hasDeclL ch

/-- `hasDecl` over a list of siblings. -/
def hasDeclL : List Node → Bool
  | [] => false
  | n :: ns => hasDecl n || hasDeclL ns

end

mutual

/-- The header line each declaration contributes, in preorder document
order, with the indentation and class context it is emitted under. -/
def headsN (ind : Nat) (c : Option String) : Node → List String
  | Node.func name ch =>
      (tabs ind ++ ("def test_" ++ name ++ "(" ++
         (if c.isSome then "self" else "") ++ "):")) :: headsL ind c ch
  | Node.afunc name ch =>
      (tabs ind ++ ("async def test_" ++ name ++ "():")) :: headsL ind c ch
  | Node.cls name ch =>
      (tabs ind ++ ("class Test" ++ name ++ ":")) :: headsL (ind + 1) (some name) ch
  | Node.other ch => headsL ind c ch

/-- `headsN` threaded through a list of siblings. -/
def headsL (ind : Nat) (c : Option String) : List Node → List String
  | [] => []
  | n :: ns => headsN ind c n ++ headsL ind (clsAfter c n) ns

end

/-- Drop leading indentation spaces from a line's characters. -/
def stripSp (l : List Char) : List Char := l.dropWhile (fun c => c = ' ')

/-- Recognizes the declaration-header lines among the generated lines:
a placeholder test definition, an async placeholder test definition, or a
test-class declaration. -/
def isHeader (s : String) : Bool :=
  List.isPrefixOf "def test_".data (stripSp s.data) ||
  List.isPrefixOf "async def test_".data (stripSp s.data) ||
  List.isPrefixOf "class Test".data (stripSp s.data)

/-- True when the first line of the list, if any, is not the blank line. -/
def notBlankHead (l : List String) : Bool :=
  match l with
  | [] => true
  | x :: _ => !(x == blankline)

/-- `set.add` on the import set; the model keeps insertion order and only
adds an element that is not already present. -/
def addImport (x : String) (l : List String) : List String :=
  if x ∈ l then l else l ++ [x]

/-- `__init__`: the state of a fresh generator for a module file. -/
def initState (modName : String) : GenState :=
  { moduleName := modName, module_docstring := "", imports := [], lines := [],
    indent := 0, current_cls := none, crashed := false }

/-- `visit_Module`: set the module docstring, add the pytest import, then
`generic_visit` the module body. -/
def visitModule (s : GenState) (ch : List Node) : GenState :=
  visitList { s with
    module_docstring := "\"\"\"Unit tests for `" ++ s.moduleName ++ "`\"\"\"",
    imports := addImport "import pytest" s.imports } ch

/-- Python `str.strip` whitespace predicate (the ASCII whitespace
characters: space, tab, newline, carriage return, vertical tab, form
feed). -/
def isPySpace (c : Char) : Bool :=
  c == ' ' || c == '\t' || c == '\n' || c == '\r' || c == '\x0b' || c == '\x0c'

/-- Python `str.strip()`: remove leading and trailing whitespace. -/
def pyStrip (s : String) : String :=
  String.mk (((s.data.dropWhile isPySpace).reverse.dropWhile isPySpace).reverse)

/-- Python `"\n".join`. -/
def joinNL : List String → String
  | [] => ""
  | [x] => x
  | x :: y :: t => x ++ linesep ++ joinNL (y :: t)

/-- The `code` property: `[docstring] + list(imports) + 2*[blankline] +
lines`, joined with the line separator, stripped, plus one final
newline. -/
def code (s : GenState) : String :=
  pyStrip (joinNL ([s.module_docstring] ++ s.imports ++ [blankline, blankline] ++ s.lines)) ++
    linesep

/-- Abstract view of the `tests` output directory: whether the directory
exists and the contents of its files, keyed by file name relative to
`tests_dir`. -/
structure FS where
  testsDirExists : Bool
  files : String → Option String

/-- `Path.mkdir(exist_ok=True)` on the tests directory. -/
def mkTestsDir (fs : FS) : FS := { fs with testsDirExists := true }

/-- `Path.touch(exist_ok=True)`: create an empty file when absent, leave
an existing file's contents unchanged. -/
def touchNew (name : String) (fs : FS) : FS :=
  match fs.files name with
  | some _ => fs
  | none => { fs with files := fun m => if m = name then some "" else fs.files m }

/-- `Path.write_text`: write, overwriting unconditionally. -/
def writeText (name content : String) (fs : FS) : FS :=
  { fs with files := fun m => if m = name then some content else fs.files m }

/-- The marker file name used by `write`. -/
def conftestName : String := "conftest.py"

/-- The generated test file name, `f"test_{self.module.stem}.py"`. -/
def testFileName (stem : String) : String := "test_" ++ stem ++ ".py"

/-- `PyTestModuleGenerator.write`: create the tests directory, touch the
marker file, then write the artifact, in this order. -/
def write (stem artifact : String) (fs : FS) : FS :=
  writeText (testFileName stem) artifact (touchNew conftestName (mkTestsDir fs))

/-- The errors one iteration of `loop_modules` can surface. -/
inductive RunError where
  | parseError
deriving DecidableEq

/-- One iteration of `loop_modules` for a single module file:
`PyTestModuleGenerator(module).generate().write()`.  The external
`ast.parse` outcome is passed in: `none` means the source text failed to
parse, in which case `generate` raises before `write` ever runs. -/
def generateAndWrite (parsed : Option (List Node)) (modName stem : String) (fs : FS) :
    FS × Option RunError :=
  match parsed with
  | none => (fs, some RunError.parseError)
  | some ch => (write stem (code (visitModule (initState modName) ch)) fs, none)

/-- A concrete generator state as `visit_ClassDef` leaves it right before
recursing into the body of a class `A`: the class header and its docstring
have been appended, `indent` was bumped to 1 and `current_cls` is `A`. -/
def cexState : GenState :=
  { moduleName := "m.py",
    module_docstring := "\"\"\"Unit tests for `m.py`\"\"\"",
    imports := ["import pytest"],
    lines := ["class TestA:", "    \"\"\"Tests for class `A`\"\"\"\n"],
    indent := 1,
    current_cls := some "A",
    crashed := false }

/-! ### String-level infrastructure -/

theorem data_append (s t : String) : (s ++ t).data = s.data ++ t.data := by
  cases s
  cases t
  rfl

theorem str_ext {s t : String} (h : s.data = t.data) : s = t := by
  cases s
  cases t
  exact congrArg String.mk (by simpa using h)

theorem str_ne_of_data_ne {s t : String} (h : s.data ≠ t.data) : s ≠ t :=
  fun he => h (by rw [he])

theorem tabs_data (n : Nat) : (tabs n).data = List.replicate (4 * n) ' ' := by
  induction n with
  | zero => rfl
  | succ k ih =>
      have h4 : tab.data = List.replicate 4 ' ' := by decide
      have hs : tabs (k + 1) = tab ++ tabs k := rfl
      rw [hs, data_append, h4, ih, ← List.replicate_add]
      congr 1
      omega

theorem rep_cons_ne (c d : Char) (hc : c ≠ ' ') (hd : d ≠ ' ') (hcd : c ≠ d) :
    ∀ (m n : Nat) (x y : List Char),
      List.replicate m ' ' ++ c :: x ≠ List.replicate n ' ' ++ d :: y := by
  intro m
  induction m with
  | zero =>
      intro n x y h
      cases n with
      | zero =>
          simp only [List.replicate_zero, List.nil_append, List.cons.injEq] at h
          exact hcd h.1
      | succ j =>
          simp only [List.replicate_zero, List.replicate_succ, List.nil_append,
            List.cons_append, List.cons.injEq] at h
          exact hc h.1
  | succ k ih =>
      intro n x y h
      cases n with
      | zero =>
          simp only [List.replicate_zero, List.replicate_succ, List.nil_append,
            List.cons_append, List.cons.injEq] at h
          exact hd h.1.symm
      | succ j =>
          simp only [List.replicate_succ, List.cons_append, List.cons.injEq] at h
          exact ih j x y h.2

theorem head_of_app {p : String} {c : Char} (h : ∃ x, p.data = c :: x) (q : String) :
    ∃ x, (p ++ q).data = c :: x := by
  obtain ⟨x, hx⟩ := h
  exact ⟨x ++ q.data, by rw [data_append, hx]; rfl⟩

theorem tabs_app_ne {a b : String} {c d : Char} (i j : Nat)
    (ha : ∃ x, a.data = c :: x) (hb : ∃ y, b.data = d :: y)
    (hc : c ≠ ' ') (hd : d ≠ ' ') (hcd : c ≠ d) :
    tabs i ++ a ≠ tabs j ++ b := by
  obtain ⟨x, hx⟩ := ha
  obtain ⟨y, hy⟩ := hb
  apply str_ne_of_data_ne
  rw [data_append, data_append, tabs_data, tabs_data, hx, hy]
  exact rep_cons_ne c d hc hd hcd (4 * i) (4 * j) x y

theorem tabs_app_ne_blank {a : String} {c : Char} (i : Nat)
    (ha : ∃ x, a.data = c :: x) :
    tabs i ++ a ≠ blankline := by
  obtain ⟨x, hx⟩ := ha
  apply str_ne_of_data_ne
  rw [data_append, tabs_data, hx]
  intro h
  have hb : blankline.data = [] := rfl
  rw [hb] at h
  exact absurd h (by simp)

/-! ### A simultaneous induction principle for `Node` and `List Node` -/

theorem node_ind (P : Node → Prop) (Q : List Node → Prop)
    (hf : ∀ name ch, Q ch → P (Node.func name ch))
    (ha : ∀ name ch, Q ch → P (Node.afunc name ch))
    (hc : ∀ name ch, Q ch → P (Node.cls name ch))
    (ho : ∀ ch, Q ch → P (Node.other ch))
    (hnil : Q [])
    (hcons : ∀ n ns, P n → Q ns → Q (n :: ns)) :
    (∀ n, P n) ∧ (∀ ns, Q ns) := by
  have key : ∀ k : Nat, (∀ n : Node, sizeOf n ≤ k → P n) ∧
      (∀ ns : List Node, sizeOf ns ≤ k → Q ns) := by
    intro k
    induction k with
    | zero =>
        constructor
        · intro n hn
          cases n <;> simp at hn
        · intro ns hn
          cases ns <;> simp at hn
    | succ k ih =>
        constructor
        · intro n hn
          cases n with
          | func name ch =>
              refine hf name ch (ih.2 ch ?_)
              simp at hn
              omega
          | afunc name ch =>
              refine ha name ch (ih.2 ch ?_)
              simp at hn
              omega
          | cls name ch =>
              refine hc name ch (ih.2 ch ?_)
              simp at hn
              omega
          | other ch =>
              refine ho ch (ih.2 ch ?_)
              simp at hn
              omega
        · intro ns hn
          cases ns with
          | nil => exact hnil
          | cons n ns =>
              refine hcons n ns (ih.1 n ?_) (ih.2 ns ?_) <;> simp at hn <;> omega
  constructor
  · intro n
    exact (key (sizeOf n)).1 n (Nat.le_refl _)
  · intro ns
    exact (key (sizeOf ns)).2 ns (Nat.le_refl _)

/-! ### Head characters of the generated lines -/

theorem hd_def (name sel : String) :
    ∃ x, ("def test_" ++ name ++ "(" ++ sel ++ "):").data = 'd' :: x :=
  head_of_app (head_of_app (head_of_app (head_of_app
    ⟨"ef test_".data, by decide⟩ name) "(") sel) "):"

theorem hd_adef (name : String) :
    ∃ x, ("async def test_" ++ name ++ "():").data = 'a' :: x :=
  head_of_app (head_of_app ⟨"sync def test_".data, by decide⟩ name) "():"

theorem hd_cls (name : String) :
    ∃ x, ("class Test" ++ name ++ ":").data = 'c' :: x :=
  head_of_app (head_of_app ⟨"lass Test".data, by decide⟩ name) ":"

theorem hd_clsdoc (name : String) :
    ∃ x, ("\"\"\"Tests for class `" ++ name ++ "`\"\"\"\n").data = '\"' :: x :=
  head_of_app (head_of_app ⟨"\"\"Tests for class `".data, by decide⟩ name) "`\"\"\"\n"

theorem hd_assert : ∃ x, default_assert_code.data = 'a' :: x :=
  ⟨"ssert False, \"not implemented\"".data, by decide⟩

theorem hd_doc : ∃ x, default_docstring.data = '\"' :: x :=
  ⟨"\"\"Should ...\"\"\"".data, by decide⟩

theorem hd_marker : ∃ x, "@pytest.mark.asyncio".data = '@' :: x :=
  ⟨"pytest.mark.asyncio".data, by decide⟩

theorem hd_pass : ∃ x, "pass".data = 'p' :: x :=
  ⟨"ass".data, by decide⟩

/-- A buffer obtained by appending at least two lines has an in-bounds
`lines[-2]`, namely the second-to-last line. -/
theorem pyNeg2_snoc2 (l : List String) (a b : String) :
    pyNeg2 (l ++ [a, b]) = some a := by
  simp [pyNeg2, List.reverse_append]

/-- Lines that can end an emitted block (blank, placeholder assertion, or
`pass`) are never equal to a class-declaration line. -/
theorem safe_ne_cls {a : String}
    (hs : a = blankline ∨ (∃ i, a = tabs i ++ default_assert_code) ∨
      (∃ i, a = tabs i ++ "pass"))
    (j : Nat) (name : String) :
    a ≠ tabs j ++ ("class Test" ++ name ++ ":") := by
  rcases hs with h | ⟨i, h⟩ | ⟨i, h⟩
  · rw [h]
    exact (tabs_app_ne_blank j (hd_cls name)).symm
  · rw [h]
    exact tabs_app_ne i j hd_assert (hd_cls name) (by decide) (by decide) (by decide)
  · rw [h]
    exact tabs_app_ne i j hd_pass (hd_cls name) (by decide) (by decide) (by decide)

/-! ### Every nonempty emitted block ends with a blank line preceded by a
blank, assertion, or `pass` line -/

theorem emit_tail_all :
    (∀ n : Node, ∀ ind c, emitNode ind c n = [] ∨
      ∃ l a, emitNode ind c n = l ++ [a, blankline] ∧
        (a = blankline ∨ (∃ i, a = tabs i ++ default_assert_code) ∨
          (∃ i, a = tabs i ++ "pass"))) ∧
    (∀ ns : List Node, ∀ ind c, emitList ind c ns = [] ∨
      ∃ l a, emitList ind c ns = l ++ [a, blankline] ∧
        (a = blankline ∨ (∃ i, a = tabs i ++ default_assert_code) ∨
          (∃ i, a = tabs i ++ "pass"))) := by
  refine node_ind _ _ ?_ ?_ ?_ ?_ ?_ ?_
  · intro name ch ihq ind c
    right
    rcases ihq ind c with h | ⟨l, a, hl, hs⟩
    · rcases c with _ | cname
      · exact ⟨[tabs ind ++ ("def test_" ++ name ++ "(" ++
            (if (none : Option String).isSome then "self" else "") ++ "):"),
          tabs (ind + 1) ++ default_docstring, tabs (ind + 1) ++ default_assert_code],
          blankline, by simp [emitNode, h], Or.inl rfl⟩
      · exact ⟨[tabs ind ++ ("def test_" ++ name ++ "(" ++
            (if (some cname).isSome then "self" else "") ++ "):"),
          tabs (ind + 1) ++ default_docstring],
          tabs (ind + 1) ++ default_assert_code,
          by simp [emitNode, h], Or.inr (Or.inl ⟨ind + 1, rfl⟩)⟩
    · exact ⟨[tabs ind ++ ("def test_" ++ name ++ "(" ++
          (if c.isSome then "self" else "") ++ "):"),
        tabs (ind + 1) ++ default_docstring, tabs (ind + 1) ++ default_assert_code] ++
        List.replicate (if c.isNone then 2 else 1) blankline ++ l,
        a, by simp [emitNode, hl], hs⟩
  · intro name ch ihq ind c
    right
    rcases ihq ind c with h | ⟨l, a, hl, hs⟩
    · rcases c with _ | cname
      · exact ⟨[tabs ind ++ "@pytest.mark.asyncio",
          tabs ind ++ ("async def test_" ++ name ++ "():"),
          tabs (ind + 1) ++ default_docstring, tabs (ind + 1) ++ default_assert_code],
          blankline, by simp [emitNode, h], Or.inl rfl⟩
      · exact ⟨[tabs ind ++ "@pytest.mark.asyncio",
          tabs ind ++ ("async def test_" ++ name ++ "():"),
          tabs (ind + 1) ++ default_docstring],
          tabs (ind + 1) ++ default_assert_code,
          by simp [emitNode, h], Or.inr (Or.inl ⟨ind + 1, rfl⟩)⟩
    · exact ⟨[tabs ind ++ "@pytest.mark.asyncio",
        tabs ind ++ ("async def test_" ++ name ++ "():"),
        tabs (ind + 1) ++ default_docstring, tabs (ind + 1) ++ default_assert_code] ++
        List.replicate (if c.isNone then 2 else 1) blankline ++ l,
        a, by simp [emitNode, hl], hs⟩
  · intro name ch ihq ind c
    right
    rcases ihq (ind + 1) (some name) with h | ⟨l, a, hl, hs⟩
    · exact ⟨[tabs ind ++ ("class Test" ++ name ++ ":"),
        tabs (ind + 1) ++ ("\"\"\"Tests for class `" ++ name ++ "`\"\"\"\n"),
        tabs (ind + 1) ++ "pass"],
        blankline, by simp [emitNode, h], Or.inl rfl⟩
    · refine ⟨[tabs ind ++ ("class Test" ++ name ++ ":"),
        tabs (ind + 1) ++ ("\"\"\"Tests for class `" ++ name ++ "`\"\"\"\n")] ++
        l ++ [a], blankline, ?_, Or.inl rfl⟩
      simp [emitNode, hl]
  · intro ch ihq ind c
    simpa [emitNode] using ihq ind c
  · intro ind c
    left
    rfl
  · intro n ns ihn ihns ind c
    rcases ihns ind (clsAfter c n) with h | ⟨l, a, hl, hs⟩
    · rcases ihn ind c with h2 | ⟨l, a, hl, hs⟩
      · left
        simp [emitList, h, h2]
      · right
        exact ⟨l, a, by simp [emitList, h, hl], hs⟩
    · right
      exact ⟨emitNode ind c n ++ l, a, by simp [emitList, hl], hs⟩

theorem emit_tail_list (ns : List Node) (ind : Nat) (c : Option String) :
    emitList ind c ns = [] ∨
      ∃ l a, emitList ind c ns = l ++ [a, blankline] ∧
        (a = blankline ∨ (∃ i, a = tabs i ++ default_assert_code) ∨
          (∃ i, a = tabs i ++ "pass")) :=
  emit_tail_all.2 ns ind c

theorem pyNeg2_snoc2x (x l : List String) (a b : String) :
    pyNeg2 (x ++ (l ++ [a, b])) = some a := by
  rw [← List.append_assoc]
  exact pyNeg2_snoc2 _ a b

/-! ### The visitor, characterized: a visit appends exactly the emitted
block, leaves `indent`, `crashed` and the module-level fields unchanged,
and updates `current_cls` to `clsAfter` -/

theorem visit_eq_all :
    (∀ n : Node, ∀ s : GenState,
      visit s n = { s with lines := s.lines ++ emitNode s.indent s.current_cls n,
                           current_cls := clsAfter s.current_cls n }) ∧
    (∀ ns : List Node, ∀ s : GenState,
      visitList s ns = { s with lines := s.lines ++ emitList s.indent s.current_cls ns,
                                current_cls := clsAfterList s.current_cls ns }) := by
  refine node_ind _ _ ?_ ?_ ?_ ?_ ?_ ?_
  · intro name ch ihq s
    simp only [visit]
    rw [ihq]
    simp [emitNode, clsAfter]
  · intro name ch ihq s
    simp only [visit]
    rw [ihq]
    simp [emitNode, clsAfter]
  · intro name ch ihq s
    simp only [visit]
    rw [ihq]
    dsimp only
    rcases emit_tail_list ch (s.indent + 1) (some name) with h | ⟨l, a, hl, hs⟩
    · rw [h]
      simp only [List.append_nil]
      rw [pyNeg2_snoc2]
      simp [emitNode, clsAfter, h]
    · have hcd : a ≠ tabs s.indent ++ ("class Test" ++ name ++ ":") :=
        safe_ne_cls hs s.indent name
      rw [hl, pyNeg2_snoc2x]
      dsimp only
      rw [if_neg hcd]
      simp [emitNode, clsAfter, hl]
  · intro ch ihq s
    simp only [visit]
    rw [ihq]
    simp [emitNode, clsAfter]
  · intro s
    simp only [visitList]
    simp [emitList, clsAfterList]
  · intro n ns ihn ihns s
    simp only [visitList]
    rw [ihn, ihns]
    simp [emitList, clsAfterList]

theorem visit_eq (s : GenState) (n : Node) :
    visit s n = { s with lines := s.lines ++ emitNode s.indent s.current_cls n,
                         current_cls := clsAfter s.current_cls n } :=
  visit_eq_all.1 n s

theorem visitList_eq (s : GenState) (ns : List Node) :
    visitList s ns = { s with lines := s.lines ++ emitList s.indent s.current_cls ns,
                              current_cls := clsAfterList s.current_cls ns } :=
  visit_eq_all.2 ns s

/-! ### A block is empty exactly when the subtree holds no declaration -/

theorem emit_nil_all :
    (∀ n : Node, ∀ ind c, emitNode ind c n = [] ↔ hasDecl n = false) ∧
    (∀ ns : List Node, ∀ ind c, emitList ind c ns = [] ↔ hasDeclL ns = false) := by
  refine node_ind _ _ ?_ ?_ ?_ ?_ ?_ ?_
  · intro name ch ihq ind c
    simp [emitNode, hasDecl]
  · intro name ch ihq ind c
    simp [emitNode, hasDecl]
  · intro name ch ihq ind c
    simp [emitNode, hasDecl]
  · intro ch ihq ind c
    simpa [emitNode, hasDecl] using ihq ind c
  · intro ind c
    simp [emitList, hasDeclL]
  · intro n ns ihn ihns ind c
    simp [emitList, hasDeclL, List.append_eq_nil, ihn ind c, ihns ind (clsAfter c n)]

theorem emit_nil_list (ns : List Node) (ind : Nat) (c : Option String) :
    emitList ind c ns = [] ↔ hasDeclL ns = false :=
  emit_nil_all.2 ns ind c

/-! ### A nonempty emitted block never starts with a blank line -/

theorem emit_head_all :
    (∀ n : Node, ∀ ind c, notBlankHead (emitNode ind c n) = true) ∧
    (∀ ns : List Node, ∀ ind c, notBlankHead (emitList ind c ns) = true) := by
  refine node_ind _ _ ?_ ?_ ?_ ?_ ?_ ?_
  · intro name ch ihq ind c
    have h := tabs_app_ne_blank ind (hd_def name (if c.isSome then "self" else ""))
    simp [emitNode, notBlankHead, h]
  · intro name ch ihq ind c
    have h := tabs_app_ne_blank ind hd_marker
    simp [emitNode, notBlankHead, h]
  · intro name ch ihq ind c
    have h := tabs_app_ne_blank ind (hd_cls name)
    simp [emitNode, notBlankHead, h]
  · intro ch ihq ind c
    simpa [emitNode] using ihq ind c
  · intro ind c
    rfl
  · intro n ns ihn ihns ind c
    cases hne : emitNode ind c n with
    | nil =>
        have h := ihns ind (clsAfter c n)
        simpa [emitList, hne] using h
    | cons x xs =>
        have h := ihn ind c
        rw [hne] at h
        simpa [emitList, hne, notBlankHead] using h

theorem emit_head_list (ns : List Node) (ind : Nat) (c : Option String) :
    notBlankHead (emitList ind c ns) = true :=
  emit_head_all.2 ns ind c

/-! ### Leading-space stripping and prefix recognition -/

theorem dropWhile_rep_sp (m : Nat) (l : List Char) :
    (List.replicate m ' ' ++ l).dropWhile (fun c => c = ' ') =
      l.dropWhile (fun c => c = ' ') := by
  induction m with
  | zero => simp
  | succ k ih => simp [List.replicate_succ, ih]

theorem stripSp_tabs (i : Nat) (a : String) :
    stripSp (tabs i ++ a).data = stripSp a.data := by
  unfold stripSp
  rw [data_append, tabs_data]
  exact dropWhile_rep_sp _ _

theorem stripSp_cons_ne {c : Char} (hne : c ≠ ' ') (l : List Char) :
    stripSp (c :: l) = c :: l := by
  simp [stripSp, List.dropWhile_cons, hne]

theorem isPrefixOf_self_app (l t : List Char) : List.isPrefixOf l (l ++ t) = true := by
  induction l with
  | nil => simp [List.isPrefixOf]
  | cons a as ih => simp [List.isPrefixOf, ih]

theorem isPrefixOf_cons_ne {a b : Char} (h : a ≠ b) (l r : List Char) :
    List.isPrefixOf (a :: l) (b :: r) = false := by
  simp [List.isPrefixOf, h]

theorem prefix_of_app {p : String} {w : List Char} (h : ∃ t, p.data = w ++ t)
    (r : String) : ∃ t, (p ++ r).data = w ++ t := by
  obtain ⟨t, ht⟩ := h
  exact ⟨t ++ r.data, by rw [data_append, ht, List.append_assoc]⟩

theorem pre_def (name sel : String) :
    ∃ t, ("def test_" ++ name ++ "(" ++ sel ++ "):").data = "def test_".data ++ t :=
  prefix_of_app (prefix_of_app (prefix_of_app (prefix_of_app
    ⟨[], by simp⟩ name) "(") sel) "):"

theorem pre_adef (name : String) :
    ∃ t, ("async def test_" ++ name ++ "():").data = "async def test_".data ++ t :=
  prefix_of_app (prefix_of_app ⟨[], by simp⟩ name) "():"

theorem pre_cls (name : String) :
    ∃ t, ("class Test" ++ name ++ ":").data = "class Test".data ++ t :=
  prefix_of_app (prefix_of_app ⟨[], by simp⟩ name) ":"

/-! ### Which generated lines the header recognizer accepts -/

theorem hdr_def (ind : Nat) (name sel : String) :
    isHeader (tabs ind ++ ("def test_" ++ name ++ "(" ++ sel ++ "):")) = true := by
  obtain ⟨t, ht⟩ := pre_def name sel
  have h1 : stripSp (tabs ind ++ ("def test_" ++ name ++ "(" ++ sel ++ "):")).data =
      "def test_".data ++ t := by
    rw [stripSp_tabs, ht]
    have hd : "def test_".data = 'd' :: "ef test_".data := by decide
    rw [hd, List.cons_append, stripSp_cons_ne (by decide), ← List.cons_append, ← hd]
  unfold isHeader
  rw [h1, isPrefixOf_self_app]
  simp

theorem hdr_adef (ind : Nat) (name : String) :
    isHeader (tabs ind ++ ("async def test_" ++ name ++ "():")) = true := by
  obtain ⟨t, ht⟩ := pre_adef name
  have h1 : stripSp (tabs ind ++ ("async def test_" ++ name ++ "():")).data =
      "async def test_".data ++ t := by
    rw [stripSp_tabs, ht]
    have hd : "async def test_".data = 'a' :: "sync def test_".data := by decide
    rw [hd, List.cons_append, stripSp_cons_ne (by decide), ← List.cons_append, ← hd]
  unfold isHeader
  rw [h1, isPrefixOf_self_app]
  simp

theorem hdr_cls (ind : Nat) (name : String) :
    isHeader (tabs ind ++ ("class Test" ++ name ++ ":")) = true := by
  obtain ⟨t, ht⟩ := pre_cls name
  have h1 : stripSp (tabs ind ++ ("class Test" ++ name ++ ":")).data =
      "class Test".data ++ t := by
    rw [stripSp_tabs, ht]
    have hd : "class Test".data = 'c' :: "lass Test".data := by decide
    rw [hd, List.cons_append, stripSp_cons_ne (by decide), ← List.cons_append, ← hd]
  unfold isHeader
  rw [h1, isPrefixOf_self_app]
  simp

theorem nh_doc (ind : Nat) : isHeader (tabs ind ++ default_docstring) = false := by
  unfold isHeader
  rw [stripSp_tabs]
  decide

theorem nh_assert (ind : Nat) : isHeader (tabs ind ++ default_assert_code) = false := by
  unfold isHeader
  rw [stripSp_tabs]
  decide

theorem nh_marker (ind : Nat) : isHeader (tabs ind ++ "@pytest.mark.asyncio") = false := by
  unfold isHeader
  rw [stripSp_tabs]
  decide

theorem nh_pass (ind : Nat) : isHeader (tabs ind ++ "pass") = false := by
  unfold isHeader
  rw [stripSp_tabs]
  decide

theorem nh_blank : isHeader blankline = false := by decide

theorem nh_clsdoc (ind : Nat) (name : String) :
    isHeader (tabs ind ++ ("\"\"\"Tests for class `" ++ name ++ "`\"\"\"\n")) = false := by
  obtain ⟨x, hx⟩ := hd_clsdoc name
  unfold isHeader
  rw [stripSp_tabs, hx, stripSp_cons_ne (by decide)]
  rw [show "def test_".data = 'd' :: "ef test_".data from by decide,
      show "async def test_".data = 'a' :: "sync def test_".data from by decide,
      show "class Test".data = 'c' :: "lass Test".data from by decide]
  rw [isPrefixOf_cons_ne (by decide), isPrefixOf_cons_ne (by decide),
      isPrefixOf_cons_ne (by decide)]
  rfl

theorem filter_rep_blank (k : Nat) :
    (List.replicate k blankline).filter isHeader = [] := by
  induction k with
  | zero => rfl
  | succ j ih => simp [List.replicate_succ, List.filter_cons, nh_blank, ih]

/-! ### The header lines of an emitted block are exactly the declaration
headers, in preorder document order -/

theorem emit_filter_all :
    (∀ n : Node, ∀ ind c, (emitNode ind c n).filter isHeader = headsN ind c n) ∧
    (∀ ns : List Node, ∀ ind c, (emitList ind c ns).filter isHeader = headsL ind c ns) := by
  refine node_ind _ _ ?_ ?_ ?_ ?_ ?_ ?_
  · intro name ch ihq ind c
    simp [emitNode, headsN, List.filter_append, List.filter_cons, hdr_def, nh_doc,
      nh_assert, filter_rep_blank, ihq ind c]
  · intro name ch ihq ind c
    simp [emitNode, headsN, List.filter_append, List.filter_cons, hdr_adef, nh_marker,
      nh_doc, nh_assert, filter_rep_blank, ihq ind c]
  · intro name ch ihq ind c
    have hif : ((if emitList (ind + 1) (some name) ch = []
        then [tabs (ind + 1) ++ "pass", blankline] else []).filter isHeader) = [] := by
      split
      · simp [List.filter_cons, nh_pass, nh_blank]
      · rfl
    simp [emitNode, headsN, List.filter_append, List.filter_cons, hdr_cls, nh_clsdoc,
      nh_blank, hif, ihq (ind + 1) (some name)]
  · intro ch ihq ind c
    simpa [emitNode, headsN] using ihq ind c
  · intro ind c
    rfl
  · intro n ns ihn ihns ind c
    simp [emitList, headsL, List.filter_append, ihn ind c, ihns ind (clsAfter c n)]

theorem emit_filter_node (n : Node) (ind : Nat) (c : Option String) :
    (emitNode ind c n).filter isHeader = headsN ind c n :=
  emit_filter_all.1 n ind c

/-! ### Renderer algebra: joining, stripping, trailing blank lines -/

theorem sapp_assoc (a b c : String) : a ++ b ++ c = a ++ (b ++ c) :=
  str_ext (by simp [data_append])

theorem sapp_nil (a : String) : a ++ "" = a :=
  str_ext (by simp [data_append])

theorem joinNL_cons_ne (a : String) {L : List String} (h : L ≠ []) :
    joinNL (a :: L) = a ++ linesep ++ joinNL L := by
  cases L with
  | nil => exact absurd rfl h
  | cons b t => rfl

theorem joinNL_snoc {l : List String} (h : l ≠ []) (x : String) :
    joinNL (l ++ [x]) = joinNL l ++ linesep ++ x := by
  induction l with
  | nil => exact absurd rfl h
  | cons a t ih =>
      cases t with
      | nil => rfl
      | cons b u =>
          rw [List.cons_append, joinNL_cons_ne a (by simp),
            joinNL_cons_ne a (by simp), ih (by simp)]
          simp [sapp_assoc]

theorem joinNL_rep_blank {l : List String} (h : l ≠ []) (k : Nat) :
    joinNL (l ++ List.replicate k blankline) =
      joinNL l ++ String.mk (List.replicate k '\n') := by
  induction k with
  | zero => simp [sapp_nil]
  | succ j ih =>
      rw [List.replicate_succ', ← List.append_assoc,
        joinNL_snoc (by simp [h]) blankline, ih]
      apply str_ext
      simp [data_append, List.replicate_succ']
      rfl

theorem dropWhile_rep_of {p : Char → Bool} {c : Char} (h : p c = true)
    (m : Nat) (l : List Char) :
    List.dropWhile p (List.replicate m c ++ l) = List.dropWhile p l := by
  induction m with
  | zero => simp
  | succ k ih => simp [List.replicate_succ, List.dropWhile_cons, h, ih]

theorem pyStrip_data (s : String) :
    (pyStrip s).data =
      ((s.data.dropWhile isPySpace).reverse.dropWhile isPySpace).reverse := rfl

theorem mk_data (l : List Char) : (String.mk l).data = l := rfl

theorem dropWhile_rep_nil {p : Char → Bool} {c : Char} (h : p c = true) (m : Nat) :
    List.dropWhile p (List.replicate m c) = [] := by
  have h2 := dropWhile_rep_of h m []
  simpa using h2

theorem pyStrip_app_newlines (y : String) (k : Nat) :
    pyStrip (y ++ String.mk (List.replicate k '\n')) = pyStrip y := by
  apply str_ext
  rw [pyStrip_data, pyStrip_data, data_append, mk_data]
  cases hz : y.data.dropWhile isPySpace with
  | nil =>
      have h1 : (y.data ++ List.replicate k '\n').dropWhile isPySpace = [] := by
        rw [List.dropWhile_append, hz]
        simp [dropWhile_rep_nil (show isPySpace '\n' = true from by decide) k]
      rw [h1]
  | cons z zs =>
      have h1 : (y.data ++ List.replicate k '\n').dropWhile isPySpace =
          (z :: zs) ++ List.replicate k '\n' := by
        rw [List.dropWhile_append, hz]
        simp
      rw [h1]
      congr 1
      rw [List.reverse_append, List.reverse_replicate]
      exact dropWhile_rep_of (show isPySpace '\n' = true from by decide) k _

theorem head_dropWhile_all (p : Char → Bool) (l : List Char) :
    ((l.dropWhile p).head?.all fun c => !p c) = true := by
  induction l with
  | nil => rfl
  | cons a t ih =>
      by_cases h : p a
      · simpa [List.dropWhile_cons, h] using ih
      · simp [List.dropWhile_cons, h]

theorem pyStrip_last_not_space (y : String) :
    ((pyStrip y).data.getLast?.all fun c => !isPySpace c) = true := by
  unfold pyStrip
  show ((((y.data.dropWhile isPySpace).reverse.dropWhile
    isPySpace).reverse.getLast?).all fun c => !isPySpace c) = true
  rw [List.getLast?_reverse]
  exact head_dropWhile_all isPySpace _

theorem joinNL_embed_newline (pre post : List String) (x : String) :
    joinNL (pre ++ [x ++ "\n"] ++ post) = joinNL (pre ++ [x, blankline] ++ post) := by
  induction pre with
  | nil =>
      cases post with
      | nil =>
          show x ++ "\n" = x ++ linesep ++ blankline
          apply str_ext
          have h1 : linesep.data = ['\n'] := by decide
          have h2 : blankline.data = ([] : List Char) := rfl
          have h3 : "\n".data = ['\n'] := by decide
          simp [data_append, h1, h2, h3]
      | cons q qs =>
          show joinNL ((x ++ "\n") :: (q :: qs)) = joinNL (x :: blankline :: q :: qs)
          rw [joinNL_cons_ne _ (by simp), joinNL_cons_ne x (by simp),
            joinNL_cons_ne blankline (by simp)]
          apply str_ext
          simp [data_append]
          rfl
  | cons a t ih =>
      simp only [List.cons_append]
      rw [joinNL_cons_ne a (show t ++ [x ++ "\n"] ++ post ≠ [] by simp),
        joinNL_cons_ne a (show t ++ [x, blankline] ++ post ≠ [] by simp), ih]

/-! ### Writer-level facts -/

theorem conftest_ne_test (stem : String) : testFileName stem ≠ conftestName := by
  obtain ⟨x, hx⟩ : ∃ x, (testFileName stem).data = 't' :: x :=
    head_of_app (head_of_app ⟨"est_".data, by decide⟩ stem) ".py"
  apply str_ne_of_data_ne
  rw [hx, show conftestName.data = 'c' :: "onftest.py".data from by decide]
  intro h
  exact absurd (List.cons.injEq .. ▸ h).1 (by decide)

theorem write_marker (stem a : String) (fs : FS) :
    (write stem a fs).files conftestName = some ((fs.files conftestName).getD "") := by
  unfold write writeText touchNew mkTestsDir
  cases hm : fs.files conftestName with
  | none => simp [hm, (conftest_ne_test stem).symm]
  | some c => simp [hm, (conftest_ne_test stem).symm]

theorem write_test_file (stem a : String) (fs : FS) :
    (write stem a fs).files (testFileName stem) = some a := by
  unfold write writeText
  simp

/-! ### The claims -/

/-- C1, counterexample: visiting a nested `ClassDef` `B` from a state in
which `current_cls` is the enclosing class `A` (the state `visit_ClassDef`
produces right before recursing into `A`'s body) leaves `current_cls` as
`None` instead of restoring the pre-visit value `A`. -/
theorem c1_counterexample :
    (visit cexState (Node.cls "B" [])).current_cls = none ∧
      cexState.current_cls = some "A" ∧
      ((visit cexState (Node.cls "B" [])).current_cls == cexState.current_cls) = false := by
  refine ⟨?_, rfl, ?_⟩ <;> decide

/-- C1, amended: after a `ClassDef` visit, `indent` is always restored to
its pre-visit value, while `current_cls` is set to `None` unconditionally —
which coincides with the pre-visit value exactly when the class was not
nested inside another class. -/
theorem c1_classdef_state_after (s : GenState) (name : String) (ch : List Node) :
    (visit s (Node.cls name ch)).indent = s.indent ∧
      (visit s (Node.cls name ch)).current_cls = none := by
  rw [visit_eq]
  exact ⟨rfl, rfl⟩

/-- C2: a `ClassDef` visit appends the class header and docstring, then the
member block, then — exactly when the member block is empty — a `pass` line
one indent level deeper than the class declaration followed by one blank
line, then the class-closing blank line; and the member block is empty
exactly when the class subtree holds no qualifying declaration. -/
theorem c2_empty_class_pass (s : GenState) (name : String) (ch : List Node) :
    (visit s (Node.cls name ch)).lines =
      s.lines ++
        [tabs s.indent ++ ("class Test" ++ name ++ ":"),
         tabs (s.indent + 1) ++ ("\"\"\"Tests for class `" ++ name ++ "`\"\"\"\n")] ++
        emitList (s.indent + 1) (some name) ch ++
        (if emitList (s.indent + 1) (some name) ch = []
         then [tabs (s.indent + 1) ++ "pass", blankline] else []) ++
        [blankline] ∧
      (emitList (s.indent + 1) (some name) ch).isEmpty = !hasDeclL ch := by
  constructor
  · rw [visit_eq]
    simp [emitNode, List.append_assoc]
  · cases hd : hasDeclL ch with
    | false =>
        rw [(emit_nil_list ch (s.indent + 1) (some name)).mpr hd]
        rfl
    | true =>
        cases hl : emitList (s.indent + 1) (some name) ch with
        | nil =>
            have h2 := (emit_nil_list ch (s.indent + 1) (some name)).mp hl
            rw [hd] at h2
            cases h2
        | cons y ys => rfl

/-- C3: a `FunctionDef` visit appends the definition line, the placeholder
docstring and the failing assertion, followed by exactly 2 blank lines when
`current_cls` is absent and exactly 1 when it is set, before any lines its
children emit; the child block never starts with a blank line.  The same
blank-line rule holds for `AsyncFunctionDef`. -/
theorem c3_blank_line_counts (s : GenState) (name : String) (ch : List Node) :
    ((visit s (Node.func name ch)).lines =
        s.lines ++
          [tabs s.indent ++ ("def test_" ++ name ++ "(" ++
             (if s.current_cls.isSome then "self" else "") ++ "):"),
           tabs (s.indent + 1) ++ default_docstring,
           tabs (s.indent + 1) ++ default_assert_code] ++
          List.replicate (if s.current_cls.isNone then 2 else 1) blankline ++
          emitList s.indent s.current_cls ch ∧
      notBlankHead (emitList s.indent s.current_cls ch) = true) ∧
    ((visit s (Node.afunc name ch)).lines =
        s.lines ++
          [tabs s.indent ++ "@pytest.mark.asyncio",
           tabs s.indent ++ ("async def test_" ++ name ++ "():"),
           tabs (s.indent + 1) ++ default_docstring,
           tabs (s.indent + 1) ++ default_assert_code] ++
          List.replicate (if s.current_cls.isNone then 2 else 1) blankline ++
          emitList s.indent s.current_cls ch ∧
      notBlankHead (emitList s.indent s.current_cls ch) = true) := by
  refine ⟨⟨?_, emit_head_list ch s.indent s.current_cls⟩,
    ⟨?_, emit_head_list ch s.indent s.current_cls⟩⟩ <;>
  · rw [visit_eq]
    simp [emitNode, List.append_assoc]

/-- C4: every visit appends exactly the block `emitNode` describes — a
structural, document-order traversal of the subtree — and the header lines
of that block are exactly the headers of the subtree's declarations, one
per declaration, in preorder document order. -/
theorem c4_order_preservation (s : GenState) (n : Node) :
    (visit s n).lines = s.lines ++ emitNode s.indent s.current_cls n ∧
      (emitNode s.indent s.current_cls n).filter isHeader =
        headsN s.indent s.current_cls n :=
  ⟨by rw [visit_eq], emit_filter_node n s.indent s.current_cls⟩

/-- C5: an `AsyncFunctionDef` visit emits the async marker line immediately
before the definition line, at the same indentation, unconditionally; the
definition line always takes no receiver parameter (the argument list is
always `()`), regardless of `current_cls`. -/
theorem c5_async_shape (s : GenState) (name : String) (ch : List Node) :
    (visit s (Node.afunc name ch)).lines =
      s.lines ++
        [tabs s.indent ++ "@pytest.mark.asyncio",
         tabs s.indent ++ ("async def test_" ++ name ++ "():"),
         tabs (s.indent + 1) ++ default_docstring,
         tabs (s.indent + 1) ++ default_assert_code] ++
        List.replicate (if s.current_cls.isNone then 2 else 1) blankline ++
        emitList s.indent s.current_cls ch := by
  rw [visit_eq]
  simp [emitNode, List.append_assoc]

/-- C6: the rendered artifact is invariant under trailing blank lines in
the body buffer; it always ends in exactly one newline (what precedes the
final newline never ends in whitespace); and the import set is
deduplicated (re-adding an import leaves it unchanged, and an added import
is present). -/
theorem c6_renderer_contract (s : GenState) (k : Nat) (x : String) (l : List String) :
    code { s with lines := s.lines ++ List.replicate k blankline } = code s ∧
      (∃ t, code s = t ++ linesep ∧ (t.data.getLast?.all fun c => !isPySpace c) = true) ∧
      addImport x (addImport x l) = addImport x l ∧ x ∈ addImport x l := by
  refine ⟨?_, ⟨pyStrip (joinNL ([s.module_docstring] ++ s.imports ++
    [blankline, blankline] ++ s.lines)), rfl, pyStrip_last_not_space _⟩, ?_, ?_⟩
  · unfold code
    dsimp only
    rw [← List.append_assoc,
      joinNL_rep_blank (l := ([s.module_docstring] ++ s.imports ++
        [blankline, blankline]) ++ s.lines) (by simp) k,
      pyStrip_app_newlines]
  · by_cases h : x ∈ l
    · simp [addImport, h]
    · simp [addImport, h]
  · by_cases h : x ∈ l
    · simp [addImport, h]
    · simp [addImport, h]

/-- C7: when the source text fails to parse (`ast.parse` yields no tree),
the run surfaces the parse error and the filesystem is returned unchanged —
no test file is created or modified before the failure. -/
theorem c7_parse_error_no_write (modName stem : String) (fs : FS) :
    generateAndWrite none modName stem fs = (fs, some RunError.parseError) := rfl

/-- C8: `write` creates the `conftest.py` marker empty when absent and
never changes its contents when present (a second invocation leaves the
marker exactly as the first left it), while the generated `test_<stem>.py`
file is written unconditionally, overwriting any previous contents. -/
theorem c8_writer_marker_idempotent (fs : FS) (stem stem2 a a2 : String) :
    (write stem a fs).files conftestName = some ((fs.files conftestName).getD "") ∧
      (write stem2 a2 (write stem a fs)).files conftestName =
        (write stem a fs).files conftestName ∧
      (write stem a fs).files (testFileName stem) = some a ∧
      (write stem2 a2 (write stem a fs)).files (testFileName stem2) = some a2 := by
  refine ⟨write_marker stem a fs, ?_, write_test_file stem a fs,
    write_test_file stem2 a2 (write stem a fs)⟩
  rw [write_marker stem2 a2 (write stem a fs), write_marker stem a fs]
  simp

/-- C9: the `self.lines[-2]` access in `visit_ClassDef` is always in
bounds: the visitor never sets the `crashed` flag that models the
`IndexError`, because the buffer is append-only and every `ClassDef` visit
appends the class header and docstring lines before recursing. -/
theorem c9_buffer_check_in_bounds (s : GenState) (n : Node) :
    (visit s n).crashed = s.crashed ∧ ∃ t, (visit s n).lines = s.lines ++ t := by
  rw [visit_eq]
  exact ⟨rfl, emitNode s.indent s.current_cls n, rfl⟩

/-- C10: the class docstring line is appended with an embedded trailing
newline character, and joining lines with the line separator renders a
line with an embedded trailing newline exactly like that line without it
followed by one extra blank line — so the class docstring is always
followed by a blank line in the rendered artifact. -/
theorem c10_class_docstring_newline (s : GenState) (name : String) (ch : List Node) :
    (∃ rest, (visit s (Node.cls name ch)).lines =
        s.lines ++
          [tabs s.indent ++ ("class Test" ++ name ++ ":"),
           (tabs (s.indent + 1) ++ ("\"\"\"Tests for class `" ++ name ++ "`\"\"\"")) ++
             "\n"] ++ rest) ∧
      ∀ (pre post : List String) (x : String),
        joinNL (pre ++ [x ++ "\n"] ++ post) = joinNL (pre ++ [x, blankline] ++ post) := by
  constructor
  · have hsplit : ("\"\"\"Tests for class `" ++ name ++ "`\"\"\"\n") =
        ("\"\"\"Tests for class `" ++ name ++ "`\"\"\"") ++ "\n" := by
      apply str_ext
      have h1 : "`\"\"\"\n".data = "`\"\"\"".data ++ "\n".data := by decide
      simp [data_append, h1]
    have hline : tabs (s.indent + 1) ++ ("\"\"\"Tests for class `" ++ name ++ "`\"\"\"\n") =
        (tabs (s.indent + 1) ++ ("\"\"\"Tests for class `" ++ name ++ "`\"\"\"")) ++ "\n" := by
      rw [hsplit, ← sapp_assoc]
    refine ⟨emitList (s.indent + 1) (some name) ch ++
      (if emitList (s.indent + 1) (some name) ch = []
       then [tabs (s.indent + 1) ++ "pass", blankline] else []) ++ [blankline], ?_⟩
    rw [visit_eq, ← hline]
    simp [emitNode, List.append_assoc]
  · exact fun pre post x => joinNL_embed_newline pre post x

/-! ### End-to-end sanity checks of the embedding on concrete modules -/

set_option maxRecDepth 10000

/-- A module with a single top-level function renders exactly as the
generator does. -/
theorem scenario_top_level_function :
    code (visitModule (initState "m.py") [Node.func "add" []]) =
      "\"\"\"Unit tests for `m.py`\"\"\"\nimport pytest\n\n\ndef test_add():\n    \"\"\"Should ...\"\"\"\n    assert False, \"not implemented\"\n" := by
  decide

/-- A class with one method: the method takes `self`, one blank line
follows it, no `pass` is inserted. -/
theorem scenario_class_with_method :
    code (visitModule (initState "stack.py") [Node.cls "Stack" [Node.func "push" []]]) =
      "\"\"\"Unit tests for `stack.py`\"\"\"\nimport pytest\n\n\nclass TestStack:\n    \"\"\"Tests for class `Stack`\"\"\"\n\n    def test_push(self):\n        \"\"\"Should ...\"\"\"\n        assert False, \"not implemented\"\n" := by
  decide

/-- An empty class gets a `pass` placeholder. -/
theorem scenario_empty_class :
    code (visitModule (initState "e.py") [Node.cls "Empty" []]) =
      "\"\"\"Unit tests for `e.py`\"\"\"\nimport pytest\n\n\nclass TestEmpty:\n    \"\"\"Tests for class `Empty`\"\"\"\n\n    pass\n" := by
  decide

/-- A top-level async function gets the async marker line directly above
its definition line and no receiver parameter. -/
theorem scenario_async_function :
    code (visitModule (initState "f.py") [Node.afunc "fetch" []]) =
      "\"\"\"Unit tests for `f.py`\"\"\"\nimport pytest\n\n\n@pytest.mark.asyncio\nasync def test_fetch():\n    \"\"\"Should ...\"\"\"\n    assert False, \"not implemented\"\n" := by
  decide

/-- The full line buffer for a class holding a nested class and then a
method: after the nested class, `current_cls` is `None`, so `test_m` is
emitted without `self` and with the top-level two blank lines. -/
theorem scenario_nested_class_loses_receiver :
    (visitModule (initState "n.py")
        [Node.cls "A" [Node.cls "B" [], Node.func "m" []]]).lines =
      ["class TestA:", "    \"\"\"Tests for class `A`\"\"\"\n",
       "    class TestB:", "        \"\"\"Tests for class `B`\"\"\"\n",
       "        pass", "", "",
       "    def test_m():", "        \"\"\"Should ...\"\"\"",
       "        assert False, \"not implemented\"", "", "", ""] := by
  decide

end Pytestplate
